import Mathlib

/-
Verification of the folder-scoped asset lifecycle and ownership-isolation
model of the everything-automotive.com front end.

Sources embedded here:
- src/src/App.tsx: an image-gallery app (sanitizeFolderName, getImages,
  uploadImage, deleteImage) and a parts-management app
  (uploadPartImage, deletePartImage, handleImageUpload, getImages listing).
- src/supabase/migrations/App.tsx: a magic-link variant of the gallery app
  and the SQL storage row-level-security policies.

Strings are modelled as Lean `String`s; the JavaScript string methods used
by the source (split, toLowerCase, startsWith, includes, regex replace)
are embedded as structurally-recursive functions over `List Char`.
JavaScript's Unicode-aware toLowerCase and \s are modelled over the ASCII
range, which covers every character class the source's checks and the
claims exercise.
-/

/- ---------------------------------------------------------------------
   Character classes used by sanitizeFolderName (src/src/App.tsx:12-20)
   --------------------------------------------------------------------- -/

/-- Whitespace as matched by the JavaScript regex `\s` in
`.replace(/\s+/g, '-')`, restricted to the ASCII range. -/
def isWsChar (c : Char) : Bool :=
  c == ' ' || c == '\t' || c == '\n' || c == '\r' || c == '\x0b' || c == '\x0c'

/-- The 37 characters kept by the `.replace(/[^a-z0-9-]/g, '')` step. -/
def allowedChars : List Char := "abcdefghijklmnopqrstuvwxyz0123456789-".data

/-- Membership in the character class `[a-z0-9-]`. -/
def isAllowedChar (c : Char) : Bool := allowedChars.contains c

/-- The `.replace(/\s+/g, '-')` step: each maximal run of whitespace becomes
a single `'-'` (the dash is emitted when the run ends). -/
def squashWs : List Char → List Char
  | [] => []
  | [c] => if isWsChar c then ['-'] else [c]
  | c :: d :: cs =>
    if isWsChar c && isWsChar d then squashWs (d :: cs)
    else (if isWsChar c then '-' else c) :: squashWs (d :: cs)

/-- The dash-collapsing replace step (regex: one-or-more dashes, global,
replaced by a single dash): each maximal run of `'-'` becomes one `'-'`. -/
def squashDash : List Char → List Char
  | [] => []
  | [c] => [c]
  | c :: d :: cs =>
    if c == '-' && d == '-' then squashDash (d :: cs)
    else c :: squashDash (d :: cs)

/-- The leading-dash strip step (regex: dashes anchored at the start,
replaced by nothing). -/
def trimStartDash (l : List Char) : List Char := l.dropWhile (fun c => c == '-')

/-- The trailing-dash strip step (regex: dashes anchored at the end,
replaced by nothing). -/
def trimEndDash (l : List Char) : List Char :=
  (l.reverse.dropWhile (fun c => c == '-')).reverse

/-- The whole `sanitizeFolderName` pipeline on character lists, in the order
the source chains its `.replace` calls. -/
def sanitizeList (l : List Char) : List Char :=
  trimEndDash (trimStartDash (squashDash
    (List.filter isAllowedChar (squashWs (l.map Char.toLower)))))

/-- `sanitizeFolderName` from src/src/App.tsx:12-20. -/
def sanitizeFolderName (s : String) : String := ⟨sanitizeList s.data⟩

/- ---------------------------------------------------------------------
   The spec's wording of sanitize (spec.md section 4.1), implemented
   independently: runs are detected with an explicit in-run flag and the
   replacement dash is emitted when a run starts.
   --------------------------------------------------------------------- -/

/-- Scan replacing whitespace runs with one `'-'`; the flag records whether
the scan is inside a whitespace run. -/
def wsRunAux : Bool → List Char → List Char
  | _, [] => []
  | inRun, c :: cs =>
    if isWsChar c then
      if inRun then wsRunAux true cs else '-' :: wsRunAux true cs
    else c :: wsRunAux false cs

/-- Step 2 of the spec's sanitize: replace each maximal whitespace run with
a single `'-'`. -/
def specWsToDash (l : List Char) : List Char := wsRunAux false l

/-- Scan collapsing `'-'` runs to one `'-'`; the flag records whether the
scan is inside a dash run. -/
def dashRunAux : Bool → List Char → List Char
  | _, [] => []
  | inRun, c :: cs =>
    if c == '-' then
      if inRun then dashRunAux true cs else '-' :: dashRunAux true cs
    else c :: dashRunAux false cs

/-- Step 4 of the spec's sanitize: collapse each maximal `'-'` run to a
single `'-'`. -/
def specCollapseDash (l : List Char) : List Char := dashRunAux false l

/-- The spec's `sanitize`, following the five steps of spec.md section 4.1
word by word: lower-case, whitespace runs to `'-'`, remove characters
outside `[a-z0-9-]`, collapse `'-'` runs, strip leading and trailing
`'-'`. -/
def specSanitize (s : String) : String :=
  ⟨trimEndDash (trimStartDash (specCollapseDash
    (List.filter isAllowedChar (specWsToDash (s.data.map Char.toLower)))))⟩

/- ---------------------------------------------------------------------
   JavaScript string helpers shared by several embedded functions
   --------------------------------------------------------------------- -/

/-- `str.split(sep)` for a one-character separator, as in
`file.name.split('.')` and PostgreSQL's `string_to_array(name, '/')`. -/
def splitOnChar (sep : Char) : List Char → List (List Char)
  | [] => [[]]
  | c :: cs =>
    let r := splitOnChar sep cs
    if c = sep then [] :: r
    else
      match r with
      | [] => [[c]]
      | g :: gs => (c :: g) :: gs

/- ---------------------------------------------------------------------
   Validation gate of uploadImage
   (src/src/App.tsx:92-106 and src/supabase/migrations/App.tsx:96-112)
   --------------------------------------------------------------------- -/

/-- A candidate file as the upload handlers see it: declared MIME type
(`file.type`), byte size (`file.size`) and filename (`file.name`). -/
structure CandidateFile where
  name : String
  type : String
  size : Nat
deriving DecidableEq

/-- The `maxSize` constant of uploadImage: `5 * 1024 * 1024`. -/
def maxUploadSize : Nat := 5 * 1024 * 1024

/-- The `validExtensions` array of uploadImage. -/
def validExtensions : List (List Char) :=
  ["jpg".data, "jpeg".data, "png".data, "gif".data, "webp".data]

/-- `file.name.split('.').pop()?.toLowerCase()`: the text after the final
`'.'` of the filename (the whole name when it has no dot), lower-cased. -/
def fileExtOf (name : String) : List Char :=
  ((splitOnChar '.' name.data).getLastD []).map Char.toLower

/-- The three checks of uploadImage in source order, with the source's error
messages; `Except.ok` means the upload proceeds. -/
def uploadImageValidate (f : CandidateFile) : Except String Unit :=
  if !("image/".data.isPrefixOf f.type.data) then
    Except.error "Selected file must be an image."
  else if f.size > maxUploadSize then
    Except.error "Image size must be less than 5MB."
  else if (fileExtOf f.name).isEmpty || !(validExtensions.contains (fileExtOf f.name)) then
    Except.error "Invalid file type. Supported formats: JPG, PNG, GIF, WebP"
  else
    Except.ok ()

/- ---------------------------------------------------------------------
   Server side ownership policy
   (src/supabase/migrations/App.tsx:260-291, SQL)
   --------------------------------------------------------------------- -/

/-- Storage operations on storage.objects. The migration creates policies
for INSERT, SELECT and DELETE only; RLS is enabled, so UPDATE has no
permitting policy. -/
inductive StorageOp where
  | insert
  | select
  | delete
  | update
deriving DecidableEq

/-- The bucket the three policies are scoped to. -/
def bucketName : String := "everything-automotive.com"

/-- The `'/'`-delimited segments of an object key. -/
def pathSegments (objectName : String) : List (List Char) :=
  splitOnChar '/' objectName.data

/-- The platform function `storage.foldername(name)`. Modelled from its
standard definition: `string_to_array(name, '/')` with the last element
(the leaf filename) dropped, so a key with no `'/'` yields the empty
array. -/
def foldernameOf (objectName : String) : List (List Char) :=
  (pathSegments objectName).dropLast

/-- The first `'/'`-delimited segment of an object key, the notion the
claim language uses. -/
def firstSegment (objectName : String) : Option (List Char) :=
  (pathSegments objectName).head?

/-- The row-level-security decision for one storage operation: the three
policies each require the caller to be authenticated, the bucket to be
`everything-automotive.com`, and `(storage.foldername(name))[1]` to equal
`auth.uid()::text`; an UPDATE finds no policy and is denied. -/
def policyAllows (authenticated : Bool) (op : StorageOp) (bucket : String)
    (objectName : String) (uid : String) : Bool :=
  match op with
  | StorageOp.update => false
  | _ =>
    authenticated && bucket == bucketName
      && (foldernameOf objectName).head? == some uid.data

/- ---------------------------------------------------------------------
   Object store model shared by the upload, list and remove claims
   --------------------------------------------------------------------- -/

/-- An object key as a list of `'/'`-separated segments. -/
abbrev ObjPath := List String

/-- Modelled from the spec: the object store is a set of live objects, one
content per path (spec.md section 4.4); contents are abstracted to
numeric identifiers. -/
abbrev StorageState := List (ObjPath × Nat)

/-- Whether an object is live at a path. -/
def storePresent (σ : StorageState) (p : ObjPath) : Bool :=
  σ.any (fun e => e.1 == p)

/-- Modelled from the spec: `upload(path, bytes, {upsert: true})` replaces
whatever was at the path and touches no other path. -/
def storeUpsert (σ : StorageState) (p : ObjPath) (c : Nat) : StorageState :=
  (p, c) :: σ.filter (fun e => e.1 != p)

/-- Modelled from the spec: `upload(path, bytes)` without upsert fails with
Conflict (`none`) when the path already holds an object. -/
def storeFreshUpload (σ : StorageState) (p : ObjPath) (c : Nat) :
    Option StorageState :=
  if storePresent σ p then none else some ((p, c) :: σ)

/-- Modelled from the spec: `remove([path])` deletes the object at the path
and touches no other path. -/
def storeRemove (σ : StorageState) (p : ObjPath) : StorageState :=
  σ.filter (fun e => e.1 != p)

/-- Modelled from the spec: the content `getPublicUrl` plus fetch returns
for a path. -/
def storeLookup (σ : StorageState) (p : ObjPath) : Option Nat :=
  (σ.find? (fun e => e.1 == p)).map (fun e => e.2)

/-- Modelled from the spec: `list(folder)` returns the names of the live
objects whose key is the folder followed by one final segment. -/
def storeListFolder (σ : StorageState) (folder : ObjPath) : List String :=
  (σ.filter (fun e => e.1.dropLast == folder)).map (fun e => e.1.getLastD "")

/- ---------------------------------------------------------------------
   View-scoped upload and delete of the parts app
   (src/src/App.tsx:430-522 of the combined file)
   --------------------------------------------------------------------- -/

/-- The fixed `currentPartSlug` of the parts app. -/
def currentPartSlug : String := "part-id"

/-- `file.name.split('.').pop()` as uploadPartImage computes the extension:
no lower-casing, whole name when there is no dot. -/
def extOfFileNameRaw (name : String) : List Char :=
  (splitOnChar '.' name.data).getLastD []

/-- The storage path uploadPartImage writes:
`{slug}/{viewType}_jpg/{viewType}.{ext}`. -/
def partImagePath (slug viewType fileName : String) : ObjPath :=
  [slug, viewType ++ "_jpg", viewType ++ "." ++ (⟨extOfFileNameRaw fileName⟩ : String)]

/-- The storage effect of uploadPartImage: an upsert write at the
view-scoped path. -/
def uploadPartImageStore (σ : StorageState) (slug viewType fileName : String)
    (content : Nat) : StorageState :=
  storeUpsert σ (partImagePath slug viewType fileName) content

/-- The live objects of one `(folderKey, viewType)` slot: every object under
`{slug}/{viewType}_jpg/`. -/
def slotObjects (σ : StorageState) (slug viewType : String) : StorageState :=
  σ.filter (fun e => e.1.take 2 == [slug, viewType ++ "_jpg"])

/-- The network effect of the gallery uploadImage flow: validation first
(src lines 92-106), and only on success an upload call at
`{folderName}/{token}.{ext}` (src lines 108-113); `token` stands for the
timestamp-plus-random or uuid filename stem. -/
def uploadImageFlow (folderName token : String) (f : CandidateFile) :
    Except String ObjPath :=
  match uploadImageValidate f with
  | Except.error e => Except.error e
  | Except.ok _ =>
    Except.ok [folderName, token ++ "." ++ (⟨fileExtOf f.name⟩ : String)]

/-- The network effect of the parts-app handleImageUpload (combined file
lines 511-522): only the MIME-type check guards the call, and on failure
the alert text is `Please select an image file`; `some` is the storage
upload call uploadPartImage then makes. -/
def handleImageUploadCall (slug viewType : String) (f : CandidateFile) :
    Option ObjPath :=
  if "image/".data.isPrefixOf f.type.data then
    some (partImagePath slug viewType f.name)
  else
    none

/- ---------------------------------------------------------------------
   Gallery listing (getImages) and its error path
   (src/src/App.tsx:43-59, src/supabase/migrations/App.tsx:35-50)
   --------------------------------------------------------------------- -/

/-- One entry of a storage listing as the gallery keeps it in state. -/
structure ImgEntry where
  name : String
  created_at : Nat
deriving DecidableEq

/-- The catch block of getImages: on error the component only logs (the
Bool) and leaves `images` untouched; on success it stores the data. -/
def getImagesOnResult (res : Except String (List ImgEntry))
    (images : List ImgEntry) : List ImgEntry × Bool :=
  match res with
  | Except.error _ => (images, true)
  | Except.ok data => (data, false)

/-- Sorting by `created_at` descending, the order getImages requests. -/
def createdDesc (a b : ImgEntry) : Prop := b.created_at ≤ a.created_at

instance : DecidableRel createdDesc := fun a b => Nat.decLe b.created_at a.created_at

instance : IsTotal ImgEntry createdDesc :=
  ⟨fun a b => le_total b.created_at a.created_at⟩

instance : IsTrans ImgEntry createdDesc :=
  ⟨fun _ _ _ hab hbc => le_trans hbc hab⟩

/-- The `limit` option both getImages variants pass. -/
def getImagesLimit : Nat := 100

/-- The `offset` option both getImages variants pass. -/
def getImagesOffset : Nat := 0

/-- Modelled from the spec: the backend's ordered listing for
`sortBy: {column: 'created_at', order: 'desc'}`. -/
def sortByCreatedDesc (entries : List ImgEntry) : List ImgEntry :=
  List.insertionSort createdDesc entries

/-- The listing getImages receives and displays: the folder's entries
sorted by creation time descending, from `offset` 0, at most `limit`
100 of them. -/
def getImagesListing (entries : List ImgEntry) : List ImgEntry :=
  ((sortByCreatedDesc entries).drop getImagesOffset).take getImagesLimit

/- ---------------------------------------------------------------------
   deletePartImage and the vehicle_parts side effect
   (combined file lines 485-508)
   --------------------------------------------------------------------- -/

/-- The columns of a vehicle_parts row the delete path can touch, plus
representative untouched columns. -/
structure PartRow where
  part_slug : String
  itemname : String
  itemurl : Option String
  category_id : Option String
  updated_at : Nat
deriving DecidableEq

/-- `imagePath.includes('/main_jpg/')`. -/
def containsMainJpg (path : String) : Bool :=
  decide ("/main_jpg/".data <:+: path.data)

/-- The UPDATE deletePartImage issues for a main-view delete: rows whose
`part_slug` is the current slug get `itemurl` nulled and `updated_at`
refreshed; every other row and column is untouched. -/
def clearMainItemUrl (db : List PartRow) (now : Nat) : List PartRow :=
  db.map (fun r =>
    if r.part_slug == currentPartSlug then
      { r with itemurl := none, updated_at := now }
    else r)

/-- deletePartImage: remove the object at the path, then update
vehicle_parts exactly when the path contains `/main_jpg/`. The storage
half is keyed by the raw path string as the source passes it. -/
def deletePartImageStep (path : String) (σ : List (String × Nat))
    (db : List PartRow) (now : Nat) : List (String × Nat) × List PartRow :=
  (σ.filter (fun e => e.1 != path),
   if containsMainJpg path then clearMainItemUrl db now else db)

/-- The path string of a view image as the parts app builds it from a
listing: `{currentPartSlug}/{viewType}_jpg/{viewType}.{ext}`. -/
def viewImagePathStr (viewType ext : String) : String :=
  currentPartSlug ++ "/" ++ viewType ++ "_jpg/" ++ viewType ++ "." ++ ext

/- ---------------------------------------------------------------------
   Helper lemmas about the sanitize pipeline
   --------------------------------------------------------------------- -/

theorem wsRunAux_false_eq_squashWs (l : List Char) : wsRunAux false l = squashWs l := by
  induction l with
  | nil => rfl
  | cons c t ih =>
    cases t with
    | nil => cases hc : isWsChar c <;> simp [wsRunAux, squashWs, hc]
    | cons d cs =>
      cases hc : isWsChar c <;> cases hd : isWsChar d <;>
        simp [wsRunAux, squashWs, hc, hd, ← ih]

theorem dashRunAux_false_eq_squashDash (l : List Char) :
    dashRunAux false l = squashDash l := by
  induction l with
  | nil => rfl
  | cons c t ih =>
    cases t with
    | nil => by_cases hc : c = '-' <;> simp [dashRunAux, squashDash, hc]
    | cons d cs =>
      by_cases hc : c = '-' <;> by_cases hd : d = '-'
      · subst hc; subst hd
        have h1 : squashDash ('-' :: '-' :: cs) = squashDash ('-' :: cs) := by
          simp [squashDash]
        rw [h1, ← ih]; simp [dashRunAux]
      · subst hc
        have h1 : squashDash ('-' :: d :: cs) = '-' :: squashDash (d :: cs) := by
          simp [squashDash, hd]
        rw [h1, ← ih]; simp [dashRunAux, hd]
      · subst hd
        have h1 : squashDash (c :: '-' :: cs) = c :: squashDash ('-' :: cs) := by
          simp [squashDash, hc]
        rw [h1, ← ih]; simp [dashRunAux, hc]
      · have h1 : squashDash (c :: d :: cs) = c :: squashDash (d :: cs) := by
          simp [squashDash, hc]
        rw [h1, ← ih]; simp [dashRunAux, hc]

theorem dropWhile_head_false {α : Type} {p : α → Bool} {l : List α} {c : α}
    {cs : List α} (h : l.dropWhile p = c :: cs) : p c = false := by
  induction l with
  | nil => simp [List.dropWhile] at h
  | cons a t ih =>
    rw [List.dropWhile_cons] at h
    by_cases ha : p a = true
    · rw [if_pos ha] at h
      exact ih h
    · rw [if_neg ha] at h
      cases h
      simpa using ha

theorem mem_squashDash {c : Char} {l : List Char} (h : c ∈ squashDash l) :
    c ∈ l := by
  induction l with
  | nil => simp [squashDash] at h
  | cons a t ih =>
    cases t with
    | nil => simpa [squashDash] using h
    | cons d cs =>
      by_cases had : (a == '-' && d == '-') = true
      · rw [show squashDash (a :: d :: cs) = squashDash (d :: cs) by
          simp [squashDash, had]] at h
        exact List.mem_cons_of_mem a (ih h)
      · rw [show squashDash (a :: d :: cs) = a :: squashDash (d :: cs) by
          simp [squashDash]; intro h1 h2; exact absurd (by simp [h1, h2]) had] at h
        rcases List.mem_cons.mp h with rfl | h2
        · exact List.mem_cons_self c (d :: cs)
        · exact List.mem_cons_of_mem a (ih h2)

theorem squashWs_id {l : List Char} (h : ∀ x ∈ l, isWsChar x = false) :
    squashWs l = l := by
  induction l with
  | nil => rfl
  | cons a t ih =>
    cases t with
    | nil => simp [squashWs, h a (by simp)]
    | cons d cs =>
      have ha := h a (by simp)
      have ht : ∀ x ∈ d :: cs, isWsChar x = false := fun x hx => h x (by simp [hx])
      simp [squashWs, ha, ht d (by simp)]
      exact ih ht

theorem squashDash_cons_head (d : Char) (cs : List Char) :
    ∃ t, squashDash (d :: cs) = d :: t := by
  induction cs generalizing d with
  | nil => exact ⟨[], rfl⟩
  | cons e cs ih =>
    by_cases hde : (d == '-' && e == '-') = true
    · have hde2 : d = '-' ∧ e = '-' := by simpa using hde
      obtain ⟨hd, he⟩ := hde2
      obtain ⟨t, ht⟩ := ih e
      refine ⟨t, ?_⟩
      rw [show squashDash (d :: e :: cs) = squashDash (e :: cs) by simp [squashDash, hde],
        ht, hd, he]
    · exact ⟨squashDash (e :: cs), by
        simp [squashDash]; intro h1 h2; exact absurd (by simp [h1, h2]) hde⟩

theorem chain_squashDash (l : List Char) :
    List.Chain' (fun a b => ¬(a = '-' ∧ b = '-')) (squashDash l) := by
  induction l with
  | nil => simp [squashDash]
  | cons a t ih =>
    cases t with
    | nil => simp [squashDash]
    | cons d cs =>
      by_cases had : (a == '-' && d == '-') = true
      · rw [show squashDash (a :: d :: cs) = squashDash (d :: cs) by
          simp [squashDash, had]]
        exact ih
      · rw [show squashDash (a :: d :: cs) = a :: squashDash (d :: cs) by
          simp [squashDash]; intro h1 h2; exact absurd (by simp [h1, h2]) had]
        obtain ⟨t, ht⟩ := squashDash_cons_head d cs
        rw [ht]
        rw [ht] at ih
        exact List.chain'_cons.mpr ⟨by simpa using had, ih⟩

theorem squashDash_id {l : List Char}
    (h : List.Chain' (fun a b => ¬(a = '-' ∧ b = '-')) l) : squashDash l = l := by
  induction l with
  | nil => rfl
  | cons a t ih =>
    cases t with
    | nil => rfl
    | cons d cs =>
      obtain ⟨had, htail⟩ := List.chain'_cons.mp h
      have hbool : (a == '-' && d == '-') = false := by
        simpa using had
      rw [show squashDash (a :: d :: cs) = a :: squashDash (d :: cs) by
        simp [squashDash, hbool]]
      rw [ih htail]

theorem mem_of_isAllowed {c : Char} (h : isAllowedChar c = true) :
    c ∈ allowedChars := by
  simpa [isAllowedChar] using h

theorem allowed_fixed_toLower : ∀ c ∈ allowedChars, Char.toLower c = c := by decide

theorem allowed_not_ws : ∀ c ∈ allowedChars, isWsChar c = false := by decide

theorem mem_trimStartDash {c : Char} {l : List Char} (h : c ∈ trimStartDash l) :
    c ∈ l :=
  (List.dropWhile_sublist (fun x => x == '-')).subset h

theorem mem_trimEndDash {c : Char} {l : List Char} (h : c ∈ trimEndDash l) :
    c ∈ l := by
  unfold trimEndDash at h
  rw [List.mem_reverse] at h
  have := (List.dropWhile_sublist (fun x => x == '-')).subset h
  simpa using this

theorem sanitizeList_allowed {l : List Char} :
    ∀ c ∈ sanitizeList l, isAllowedChar c = true := by
  intro c hc
  unfold sanitizeList at hc
  have h1 := mem_trimStartDash (mem_trimEndDash hc)
  have h2 := mem_squashDash h1
  exact (List.mem_filter.mp h2).2

theorem infix_trimStartDash (l : List Char) : trimStartDash l <:+: l :=
  (List.dropWhile_suffix (fun x => x == '-')).isInfix

theorem infix_trimEndDash (l : List Char) : trimEndDash l <:+: l := by
  unfold trimEndDash
  have h : l.reverse.dropWhile (fun x => x == '-') <:+: l.reverse :=
    (List.dropWhile_suffix (fun x => x == '-')).isInfix
  have h2 := List.reverse_infix.mpr h
  simpa using h2

theorem trimEndDash_isPrefix (l : List Char) : trimEndDash l <+: l := by
  unfold trimEndDash
  have h : l.reverse.dropWhile (fun x => x == '-') <:+ l.reverse :=
    List.dropWhile_suffix (fun x => x == '-')
  obtain ⟨s, hs⟩ := h
  refine ⟨s.reverse, ?_⟩
  have := congrArg List.reverse hs
  simpa using this

theorem sanitizeList_head {l : List Char} {c : Char}
    (h : (sanitizeList l).head? = some c) : c ≠ '-' := by
  unfold sanitizeList at h
  set v := squashDash
    (List.filter isAllowedChar (squashWs (l.map Char.toLower))) with hv
  cases ht : trimEndDash (trimStartDash v) with
  | nil => rw [ht] at h; simp at h
  | cons a t =>
    rw [ht] at h
    simp at h
    have hac : a = c := h
    subst hac
    obtain ⟨r, hr⟩ := trimEndDash_isPrefix (trimStartDash v)
    rw [ht] at hr
    have hdw : List.dropWhile (fun x => x == '-') v = a :: (t ++ r) := by
      rw [show List.dropWhile (fun x => x == '-') v = trimStartDash v from rfl, ← hr]
      simp
    have hhead := dropWhile_head_false hdw
    simpa using hhead

theorem sanitizeList_revHead {l : List Char} {c : Char}
    (h : (sanitizeList l).reverse.head? = some c) : c ≠ '-' := by
  unfold sanitizeList at h
  set u := trimStartDash (squashDash
    (List.filter isAllowedChar (squashWs (l.map Char.toLower)))) with hu
  have hrev : (trimEndDash u).reverse = u.reverse.dropWhile (fun x => x == '-') := by
    unfold trimEndDash
    simp
  rw [hrev] at h
  cases hd : u.reverse.dropWhile (fun x => x == '-') with
  | nil => rw [hd] at h; simp at h
  | cons a t =>
    rw [hd] at h
    simp at h
    subst h
    have hhead := dropWhile_head_false hd
    simpa using hhead

theorem trimStartDash_id {l : List Char}
    (h : ∀ c, l.head? = some c → c ≠ '-') : trimStartDash l = l := by
  cases l with
  | nil => rfl
  | cons a t =>
    have ha : (a == '-') = false := by simpa using h a rfl
    unfold trimStartDash
    rw [List.dropWhile_cons, ha]
    simp

theorem trimEndDash_id {l : List Char}
    (h : ∀ c, l.reverse.head? = some c → c ≠ '-') : trimEndDash l = l := by
  unfold trimEndDash
  have : l.reverse.dropWhile (fun x => x == '-') = l.reverse := by
    cases hr : l.reverse with
    | nil => simp
    | cons a t =>
      have ha : (a == '-') = false := by simpa using h a (by rw [hr]; rfl)
      rw [List.dropWhile_cons, ha]
      simp
  rw [this]
  simp

theorem map_toLower_id {l : List Char}
    (h : ∀ c ∈ l, isAllowedChar c = true) : l.map Char.toLower = l := by
  induction l with
  | nil => rfl
  | cons a t ih =>
    have ha := allowed_fixed_toLower a (mem_of_isAllowed (h a (by simp)))
    simp [ha]
    exact ih (fun c hc => h c (by simp [hc]))

theorem sanitizeList_fixed (l : List Char) :
    sanitizeList (sanitizeList l) = sanitizeList l := by
  set t := sanitizeList l with htdef
  have hall : ∀ c ∈ t, isAllowedChar c = true := sanitizeList_allowed
  have hnw : ∀ c ∈ t, isWsChar c = false := fun c hc =>
    allowed_not_ws c (mem_of_isAllowed (hall c hc))
  have hchain : List.Chain' (fun a b => ¬(a = '-' ∧ b = '-')) t := by
    have h0 := chain_squashDash
      (List.filter isAllowedChar (squashWs (l.map Char.toLower)))
    have h1 := List.Chain'.infix h0 (infix_trimStartDash _)
    exact List.Chain'.infix h1 (infix_trimEndDash _)
  have hhead : ∀ c, t.head? = some c → c ≠ '-' := fun c hc =>
    sanitizeList_head (htdef ▸ hc)
  have hlast : ∀ c, t.reverse.head? = some c → c ≠ '-' := fun c hc =>
    sanitizeList_revHead (htdef ▸ hc)
  show sanitizeList t = t
  unfold sanitizeList
  rw [map_toLower_id hall, squashWs_id hnw, List.filter_eq_self.mpr hall,
    squashDash_id hchain, trimStartDash_id hhead, trimEndDash_id hlast]

/-- C4: `sanitizeFolderName` is idempotent: sanitizing an already-sanitized
string returns it unchanged. -/
theorem c4_sanitize_idempotent (s : String) :
    sanitizeFolderName (sanitizeFolderName s) = sanitizeFolderName s :=
  congrArg String.mk (sanitizeList_fixed s.data)

/-- C3: `sanitizeFolderName` computes exactly the five-step pipeline the
spec describes (lower-case, whitespace runs to a dash, drop characters
outside a-z 0-9 dash, collapse dash runs, strip edge dashes), and in
particular sends the string My Car Part with two bangs to my-car-part and
an all-whitespace string to the empty string. -/
theorem c3_sanitize_matches_spec :
    (∀ s : String, sanitizeFolderName s = specSanitize s)
    ∧ sanitizeFolderName "My Car Part!!" = "my-car-part"
    ∧ sanitizeFolderName "   " = "" := by
  refine ⟨fun s => ?_, by decide, by decide⟩
  show (⟨sanitizeList s.data⟩ : String) = specSanitize s
  unfold sanitizeList specSanitize
  rw [show specWsToDash (s.data.map Char.toLower)
      = squashWs (s.data.map Char.toLower) from
    wsRunAux_false_eq_squashWs _]
  rw [show specCollapseDash (List.filter isAllowedChar
        (squashWs (s.data.map Char.toLower)))
      = squashDash (List.filter isAllowedChar
        (squashWs (s.data.map Char.toLower))) from
    dashRunAux_false_eq_squashDash _]

/- ---------------------------------------------------------------------
   C2: the validation gate
   --------------------------------------------------------------------- -/

theorem validExt_not_empty {e : List Char} (h : e ∈ validExtensions) :
    e.isEmpty = false := by
  simp [validExtensions] at h
  rcases h with h | h | h | h | h <;> simp [h]

/-- C2: the Validation Gate accepts exactly when the declared MIME type
starts with image/, the byte size is at most 5 MiB, and the lower-cased
text after the final dot of the filename (the whole name when it has no
dot) is one of jpg, jpeg, png, gif, webp. In particular a 5 MiB file
passes the size rule, one byte more is rejected whatever the extension,
and upper- or mixed-case extensions are accepted exactly when their
lower-casing is in the set. -/
theorem c2_validation_gate :
    (∀ f : CandidateFile,
      uploadImageValidate f = Except.ok ()
        ↔ ("image/".data.isPrefixOf f.type.data = true
            ∧ f.size ≤ 5 * 1024 * 1024
            ∧ fileExtOf f.name ∈ validExtensions))
    ∧ uploadImageValidate ⟨"a.jpg", "image/jpeg", 5 * 1024 * 1024⟩ = Except.ok ()
    ∧ uploadImageValidate ⟨"a.jpg", "image/jpeg", 5 * 1024 * 1024 + 1⟩
        = Except.error "Image size must be less than 5MB."
    ∧ uploadImageValidate ⟨"b.gif", "image/gif", 5 * 1024 * 1024 + 1⟩
        = Except.error "Image size must be less than 5MB."
    ∧ uploadImageValidate ⟨"b.JPG", "image/jpeg", 10⟩ = Except.ok ()
    ∧ uploadImageValidate ⟨"b.Jpg", "image/jpeg", 10⟩ = Except.ok ()
    ∧ uploadImageValidate ⟨"b.BMP", "image/bmp", 10⟩
        = Except.error "Invalid file type. Supported formats: JPG, PNG, GIF, WebP" := by
  refine ⟨fun f => ?_, by rfl, by rfl, by rfl, by rfl, by rfl, by rfl⟩
  unfold uploadImageValidate
  by_cases h1 : ("image/".data.isPrefixOf f.type.data) = true
  · by_cases h2 : f.size > maxUploadSize
    · have : ¬ f.size ≤ 5 * 1024 * 1024 := by
        simp [maxUploadSize] at h2
        omega
      simp [h1, h2, this]
    · by_cases h3 : fileExtOf f.name ∈ validExtensions
      · have hne := validExt_not_empty h3
        have hsz : f.size ≤ 5 * 1024 * 1024 := by
          simp [maxUploadSize] at h2
          omega
        simp [h1, h2, h3, hne, hsz]
      · simp [h1, h2, h3]
  · have h1f : ("image/".data.isPrefixOf f.type.data) = false := by
      simp only [Bool.not_eq_true] at h1
      exact h1
    simp [h1f]

/- ---------------------------------------------------------------------
   C1: the server-side ownership policy
   --------------------------------------------------------------------- -/

theorem dropLast_head_eq {α : Type} {u : α} (l : List α) :
    l.dropLast.head? = some u ↔ ∃ rest, l = u :: rest ∧ rest ≠ [] := by
  cases l with
  | nil => simp
  | cons c cs =>
    cases cs with
    | nil => simp
    | cons d ds =>
      simp only [List.dropLast_cons₂, List.head?_cons, Option.some_inj]
      constructor
      · rintro rfl
        exact ⟨d :: ds, rfl, by simp⟩
      · rintro ⟨rest, heq, hne⟩
        cases heq
        rfl

/-- C1 counterexample: an authenticated insert on the bucket at the
slash-free object key alice, whose first slash-delimited segment equals
the caller identifier alice, is nonetheless denied, because
storage.foldername drops the leaf segment and leaves an empty array. So
the as-stated iff (permitted exactly when the first segment equals the
identifier) fails. -/
theorem c1_counterexample :
    firstSegment "alice" = some "alice".data
    ∧ policyAllows true StorageOp.insert bucketName "alice" "alice" = false :=
  ⟨rfl, rfl⟩

/-- C1 amended: for insert, select and delete on the bucket, the policy
permits an authenticated call iff the object key has at least two
slash-delimited segments and the first equals the principal's identifier
(a key with no slash is always denied, even when it equals the
identifier); every permitted call still has its first segment equal to
the identifier, so a call whose first segment differs always fails; and
no update operation is ever permitted. -/
theorem c1_ownership_policy (auth : Bool) (op : StorageOp)
    (bucket objectName uid : String) (hop : op ≠ StorageOp.update) :
    (policyAllows auth op bucket objectName uid = true
      ↔ (auth = true ∧ bucket = bucketName
          ∧ ∃ rest, pathSegments objectName = uid.data :: rest ∧ rest ≠ []))
    ∧ (policyAllows auth op bucket objectName uid = true
        → firstSegment objectName = some uid.data)
    ∧ policyAllows auth StorageOp.update bucket objectName uid = false := by
  have hmain : policyAllows auth op bucket objectName uid = true
      ↔ (auth = true ∧ bucket = bucketName
          ∧ ∃ rest, pathSegments objectName = uid.data :: rest ∧ rest ≠ []) := by
    have harm : policyAllows auth op bucket objectName uid
        = (auth && bucket == bucketName
            && ((foldernameOf objectName).head? == some uid.data)) := by
      cases op with
      | insert => rfl
      | select => rfl
      | delete => rfl
      | update => exact absurd rfl hop
    rw [harm]
    simp only [Bool.and_eq_true, beq_iff_eq, and_assoc]
    rw [show foldernameOf objectName = (pathSegments objectName).dropLast from rfl]
    rw [dropLast_head_eq]
  refine ⟨hmain, fun hp => ?_, rfl⟩
  obtain ⟨-, -, rest, hseg, -⟩ := hmain.mp hp
  unfold firstSegment
  rw [hseg]
  rfl

/-- C1 witness: the amended characterization at a concrete permitted call. -/
theorem c1_witness :
    policyAllows true StorageOp.insert bucketName "alice/car.png" "alice" = true :=
  (c1_ownership_policy true StorageOp.insert bucketName "alice/car.png" "alice"
    (by decide)).1.mpr ⟨rfl, rfl, ⟨["car.png".data], by decide, by decide⟩⟩

/- ---------------------------------------------------------------------
   C5: view-scoped upload paths and upsert
   --------------------------------------------------------------------- -/

/-- C5 counterexample: two sequential uploadPartImage calls to the same
(folderKey, viewType) slot, the first with a png file and the second with
a jpg file, leave two live objects in the slot, because the file's own
extension is part of the path; so after two sequential uploads to the same
(folderKey, viewType) it is not in general true that exactly one live
object remains. -/
theorem c5_counterexample :
    (slotObjects
      (uploadPartImageStore
        (uploadPartImageStore [] "part-id" "main" "a.png" 1)
        "part-id" "main" "a.jpg" 2)
      "part-id" "main").length = 2 := rfl

theorem slotObjects_filter (σ : StorageState) (slug viewType : String)
    (q : ObjPath × Nat → Bool) :
    slotObjects (σ.filter q) slug viewType
      = (slotObjects σ slug viewType).filter q := by
  unfold slotObjects
  rw [List.filter_comm]

/-- C5 amended: uploadPartImage writes at
folderKey/viewType_jpg/viewType.ext with upsert semantics. Two sequential
uploads to the same (folderKey, viewType) whose files carry the same
extension hit the same path: starting from a store whose slot is empty,
the slot afterwards holds exactly one live object, at that path, bearing
the second upload's content (which is what getPublicUrl plus fetch
returns). With differing extensions both objects stay live, as the
counterexample shows. -/
theorem c5_view_scoped_upsert (σ : StorageState) (slug viewType f1 f2 : String)
    (c1 c2 : Nat)
    (hslot : slotObjects σ slug viewType = [])
    (hext : extOfFileNameRaw f1 = extOfFileNameRaw f2) :
    partImagePath slug viewType f2
      = [slug, viewType ++ "_jpg",
          viewType ++ "." ++ (⟨extOfFileNameRaw f2⟩ : String)]
    ∧ slotObjects
        (uploadPartImageStore (uploadPartImageStore σ slug viewType f1 c1)
          slug viewType f2 c2) slug viewType
      = [(partImagePath slug viewType f2, c2)]
    ∧ storeLookup
        (uploadPartImageStore (uploadPartImageStore σ slug viewType f1 c1)
          slug viewType f2 c2)
        (partImagePath slug viewType f2) = some c2 := by
  have hpath : partImagePath slug viewType f1 = partImagePath slug viewType f2 := by
    unfold partImagePath
    rw [hext]
  have hin : (partImagePath slug viewType f2).take 2
      == [slug, viewType ++ "_jpg"] := by
    simp [partImagePath]
  refine ⟨rfl, ?_, ?_⟩
  · unfold uploadPartImageStore storeUpsert
    rw [hpath]
    unfold slotObjects
    rw [List.filter_cons_of_pos (by exact hin)]
    rw [List.filter_cons_of_neg (by simp)]
    rw [show ∀ r : List (ObjPath × Nat),
        List.filter (fun e => e.1.take 2 == [slug, viewType ++ "_jpg"]) r
          = slotObjects r slug viewType from fun r => rfl]
    rw [slotObjects_filter, slotObjects_filter, hslot]
    rfl
  · unfold uploadPartImageStore storeUpsert storeLookup
    rw [hpath]
    simp [List.find?_cons]

/-- C5 witness: the amended theorem at two same-extension uploads from the
empty store. -/
theorem c5_witness :
    slotObjects
      (uploadPartImageStore (uploadPartImageStore [] "part-id" "main" "a.jpg" 1)
        "part-id" "main" "b.jpg" 2) "part-id" "main"
      = [(partImagePath "part-id" "main" "b.jpg", 2)] :=
  (c5_view_scoped_upsert [] "part-id" "main" "a.jpg" "b.jpg" 1 2 rfl rfl).2.1

/- ---------------------------------------------------------------------
   C7: round-trip and the per-asset state machine
   --------------------------------------------------------------------- -/

theorem storePresent_iff (σ : StorageState) (q : ObjPath) :
    storePresent σ q = true ↔ ∃ e ∈ σ, e.1 = q := by
  simp [storePresent, List.any_eq_true, beq_iff_eq]

theorem storePresent_upsert (σ : StorageState) (p q : ObjPath) (c : Nat) :
    storePresent (storeUpsert σ p c) q = true
      ↔ (q = p ∨ storePresent σ q = true) := by
  rw [storePresent_iff, storePresent_iff]
  unfold storeUpsert
  constructor
  · rintro ⟨e, he, rfl⟩
    rcases List.mem_cons.mp he with rfl | hf
    · exact Or.inl rfl
    · exact Or.inr ⟨e, (List.mem_filter.mp hf).1, rfl⟩
  · rintro (rfl | ⟨e, he, rfl⟩)
    · exact ⟨(q, c), by simp, rfl⟩
    · by_cases hep : e.1 = p
      · exact ⟨(p, c), by simp, hep.symm⟩
      · exact ⟨e, List.mem_cons_of_mem _ (List.mem_filter.mpr ⟨he, by simpa using hep⟩), rfl⟩

theorem storePresent_remove (σ : StorageState) (p q : ObjPath) :
    storePresent (storeRemove σ p) q = true
      ↔ (storePresent σ q = true ∧ q ≠ p) := by
  rw [storePresent_iff, storePresent_iff]
  unfold storeRemove
  constructor
  · rintro ⟨e, he, rfl⟩
    obtain ⟨hmem, hne⟩ := List.mem_filter.mp he
    exact ⟨⟨e, hmem, rfl⟩, by simpa using hne⟩
  · rintro ⟨⟨e, he, rfl⟩, hne⟩
    exact ⟨e, List.mem_filter.mpr ⟨he, by simpa using hne⟩, rfl⟩

theorem storeFreshUpload_none_iff (σ : StorageState) (p : ObjPath) (c : Nat) :
    storeFreshUpload σ p c = none ↔ storePresent σ p = true := by
  unfold storeFreshUpload
  by_cases h : storePresent σ p = true
  · simp [h]
  · simp [h]

theorem storeFreshUpload_some (σ σ2 : StorageState) (p : ObjPath) (c : Nat)
    (h : storeFreshUpload σ p c = some σ2) :
    σ2 = (p, c) :: σ ∧ storePresent σ p = false := by
  unfold storeFreshUpload at h
  by_cases hp : storePresent σ p = true
  · rw [if_pos hp] at h
    cases h
  · rw [if_neg hp] at h
    exact ⟨(Option.some_inj.mp h).symm, by simpa using hp⟩

theorem listFolder_mem_iff (σ : StorageState) (folder : ObjPath)
    (name : String) (hname : name ≠ "") :
    name ∈ storeListFolder σ folder
      ↔ ∃ c, (folder ++ [name], c) ∈ σ := by
  unfold storeListFolder
  simp only [List.mem_map, List.mem_filter, beq_iff_eq]
  constructor
  · rintro ⟨e, ⟨hmem, hdrop⟩, hlast⟩
    cases hne : e.1 with
    | nil =>
      rw [hne] at hlast
      simp at hlast
      exact absurd hlast.symm hname
    | cons a t =>
      have hnn : e.1 ≠ [] := by rw [hne]; simp
      have hgl : e.1.getLastD "" = e.1.getLast hnn := by
        rw [List.getLastD_eq_getLast?, List.getLast?_eq_getLast _ hnn]
        rfl
      have hsplit : e.1.dropLast ++ [e.1.getLast hnn] = e.1 :=
        List.dropLast_append_getLast hnn
      refine ⟨e.2, ?_⟩
      have : (folder ++ [name]) = e.1 := by
        rw [← hdrop, ← hlast, hgl]
        exact hsplit
      rw [this]
      simpa using hmem
  · rintro ⟨c, hmem⟩
    refine ⟨(folder ++ [name], c), ⟨hmem, ?_⟩, ?_⟩
    · simp
    · simp

/-- C7: upload followed by a list of the folder shows an entry named by the
path's leaf; remove followed by that list no longer shows it; and the only
transitions are absent-to-present by upload, present-to-absent by remove,
and present-to-present by an upsert re-upload: a non-upsert upload of a
present path fails with Conflict, and no operation changes the presence of
any path other than its own. -/
theorem c7_roundtrip_state_machine (σ : StorageState) (folder : ObjPath)
    (name : String) (p : ObjPath) (c : Nat) (hname : name ≠ "") :
    (∀ σ2, storeFreshUpload σ (folder ++ [name]) c = some σ2
       → name ∈ storeListFolder σ2 folder)
    ∧ name ∉ storeListFolder (storeRemove σ (folder ++ [name])) folder
    ∧ (∀ σ2, storeFreshUpload σ p c = some σ2
        → ∀ q, storePresent σ2 q = true ↔ (q = p ∨ storePresent σ q = true))
    ∧ (storeFreshUpload σ p c = none ↔ storePresent σ p = true)
    ∧ (∀ q, storePresent (storeUpsert σ p c) q = true
        ↔ (q = p ∨ storePresent σ q = true))
    ∧ (∀ q, storePresent (storeRemove σ p) q = true
        ↔ (storePresent σ q = true ∧ q ≠ p)) := by
  refine ⟨?_, ?_, ?_, storeFreshUpload_none_iff σ p c,
    fun q => storePresent_upsert σ p q c, fun q => storePresent_remove σ p q⟩
  · intro σ2 h
    obtain ⟨rfl, -⟩ := storeFreshUpload_some σ σ2 _ c h
    exact (listFolder_mem_iff _ folder name hname).mpr ⟨c, by simp⟩
  · intro hmem
    obtain ⟨c2, hc2⟩ := (listFolder_mem_iff _ folder name hname).mp hmem
    have := List.mem_filter.mp hc2
    simp at this
  · intro σ2 h q
    obtain ⟨rfl, habs⟩ := storeFreshUpload_some σ σ2 p c h
    rw [storePresent_iff, storePresent_iff]
    constructor
    · rintro ⟨e, he, rfl⟩
      rcases List.mem_cons.mp he with rfl | hmem
      · exact Or.inl rfl
      · exact Or.inr ⟨e, hmem, rfl⟩
    · rintro (rfl | ⟨e, he, rfl⟩)
      · exact ⟨(q, c), by simp, rfl⟩
      · exact ⟨e, by simp [he], rfl⟩

/-- C7 witness: a concrete upload of u/f.png from the empty store, listed
under u. -/
theorem c7_witness :
    "f.png" ∈ storeListFolder [((["u"] ++ ["f.png"] : ObjPath), 3)] ["u"] :=
  (c7_roundtrip_state_machine [] ["u"] "f.png" ["u", "f.png"] 3 (by decide)).1
    [((["u"] ++ ["f.png"] : ObjPath), 3)] rfl

/- ---------------------------------------------------------------------
   C6: validation before the network call
   --------------------------------------------------------------------- -/

/-- C6 counterexample: on the parts upload path (handleImageUpload), a file
whose declared type is an image but whose size exceeds 5 MiB and whose
extension bmp is outside the allowed set still produces a storage upload
call; only the MIME check runs before the network call there, although the
full gate would reject the same file on the gallery path. So the claim
that every upload path applies the type, size and extension checks locally
before any network call fails. -/
theorem c6_counterexample :
    handleImageUploadCall "part-id" "front"
        ⟨"x.bmp", "image/bmp", 5 * 1024 * 1024 + 1⟩
      = some (partImagePath "part-id" "front" "x.bmp")
    ∧ uploadImageValidate ⟨"x.bmp", "image/bmp", 5 * 1024 * 1024 + 1⟩
      = Except.error "Image size must be less than 5MB." :=
  ⟨rfl, rfl⟩

/-- C6 amended: on the gallery upload paths the type, size and extension
checks all run before any network call — an upload call is produced
exactly when all three pass, and a failing rule aborts locally with its
user-facing message; on the parts upload path only the MIME-type check
guards the network call, and size and extension are not checked. -/
theorem c6_validation_before_network (folderName token slug viewType : String)
    (f : CandidateFile) :
    ((∃ p, uploadImageFlow folderName token f = Except.ok p)
      ↔ uploadImageValidate f = Except.ok ())
    ∧ (∀ e, uploadImageFlow folderName token f = Except.error e
        → uploadImageValidate f = Except.error e)
    ∧ ("image/".data.isPrefixOf f.type.data = false
        → uploadImageFlow folderName token f
            = Except.error "Selected file must be an image.")
    ∧ ("image/".data.isPrefixOf f.type.data = true → f.size > maxUploadSize
        → uploadImageFlow folderName token f
            = Except.error "Image size must be less than 5MB.")
    ∧ ("image/".data.isPrefixOf f.type.data = true → ¬f.size > maxUploadSize
        → fileExtOf f.name ∉ validExtensions
        → uploadImageFlow folderName token f
            = Except.error "Invalid file type. Supported formats: JPG, PNG, GIF, WebP")
    ∧ ((∃ p, handleImageUploadCall slug viewType f = some p)
        ↔ "image/".data.isPrefixOf f.type.data = true) := by
  refine ⟨?_, ?_, ?_, ?_, ?_, ?_⟩
  · cases hv : uploadImageValidate f with
    | error e =>
      simp [uploadImageFlow, hv]
    | ok u =>
      cases u
      simp [uploadImageFlow, hv]
  · intro e he
    cases hv : uploadImageValidate f with
    | error e2 =>
      rw [show uploadImageFlow folderName token f = Except.error e2 by
        simp [uploadImageFlow, hv]] at he
      cases he
      rfl
    | ok u =>
      cases u
      rw [show uploadImageFlow folderName token f
          = Except.ok [folderName, token ++ "." ++ (⟨fileExtOf f.name⟩ : String)] by
        simp [uploadImageFlow, hv]] at he
      cases he
  · intro h1
    have hv : uploadImageValidate f = Except.error "Selected file must be an image." := by
      unfold uploadImageValidate
      rw [h1]
      rfl
    simp [uploadImageFlow, hv]
  · intro h1 h2
    have hv : uploadImageValidate f
        = Except.error "Image size must be less than 5MB." := by
      unfold uploadImageValidate
      rw [h1]
      simp [h2]
    simp [uploadImageFlow, hv]
  · intro h1 h2 h3
    have hcont : validExtensions.contains (fileExtOf f.name) = false := by
      simpa using h3
    have hv : uploadImageValidate f
        = Except.error "Invalid file type. Supported formats: JPG, PNG, GIF, WebP" := by
      unfold uploadImageValidate
      rw [h1]
      simp [h2, hcont, h3]
    simp [uploadImageFlow, hv]
  · unfold handleImageUploadCall
    by_cases h : "image/".data.isPrefixOf f.type.data = true
    · simp [h]
    · simp only [Bool.not_eq_true] at h
      simp [h]

/-- C6 witness: the amended theorem's size branch at a concrete oversized
gif on the gallery path. -/
theorem c6_witness :
    uploadImageFlow "alice" "tok" ⟨"x.gif", "image/gif", 5 * 1024 * 1024 + 1⟩
      = Except.error "Image size must be less than 5MB." :=
  (c6_validation_before_network "alice" "tok" "part-id" "front"
      ⟨"x.gif", "image/gif", 5 * 1024 * 1024 + 1⟩).2.2.2.1 rfl (by decide)

/- ---------------------------------------------------------------------
   C8: the list-refresh error path
   --------------------------------------------------------------------- -/

/-- C8: when the gallery list refresh fails, getImages only logs the error
(the Bool flag) and leaves the images state unchanged, so the UI keeps
showing the last known-good snapshot; a successful refresh replaces the
snapshot with the fresh listing. -/
theorem c8_stale_over_broken (e : String) (images data : List ImgEntry) :
    getImagesOnResult (Except.error e) images = (images, true)
    ∧ getImagesOnResult (Except.ok data) images = (data, false) :=
  ⟨rfl, rfl⟩

/- ---------------------------------------------------------------------
   C9: the 100-entry listing cap
   --------------------------------------------------------------------- -/

/-- C9: every gallery listing call requests at most 100 entries, at offset
0, sorted by creation time descending; the displayed (and so deletable)
set is the take of 100 from the descending-sorted folder, it is itself
sorted, drawn from the folder, capped at 100, and in a folder of more
than 100 distinct assets some asset is invisible; every invisible asset
is no newer than every displayed one. -/
theorem c9_listing_cap (entries : List ImgEntry) :
    getImagesLimit = 100
    ∧ getImagesOffset = 0
    ∧ getImagesListing entries = (sortByCreatedDesc entries).take 100
    ∧ (getImagesListing entries).length ≤ 100
    ∧ List.Sorted createdDesc (getImagesListing entries)
    ∧ (∀ a ∈ getImagesListing entries, a ∈ entries)
    ∧ (entries.Nodup → entries.length > 100
        → ∃ b ∈ entries, b ∉ getImagesListing entries)
    ∧ (∀ b ∈ entries, b ∉ getImagesListing entries
        → ∀ a ∈ getImagesListing entries, b.created_at ≤ a.created_at) := by
  have hLdef : getImagesListing entries = (sortByCreatedDesc entries).take 100 := by
    unfold getImagesListing getImagesLimit getImagesOffset
    rfl
  have hsorted : List.Sorted createdDesc (sortByCreatedDesc entries) :=
    List.sorted_insertionSort createdDesc entries
  have hperm : List.Perm (sortByCreatedDesc entries) entries :=
    List.perm_insertionSort createdDesc entries
  refine ⟨rfl, rfl, hLdef, ?_, ?_, ?_, ?_, ?_⟩
  · rw [hLdef]
    exact List.length_take_le 100 _
  · rw [hLdef]
    exact List.Pairwise.sublist (List.take_sublist 100 _) hsorted
  · intro a ha
    rw [hLdef] at ha
    exact hperm.subset (List.take_subset 100 _ ha)
  · intro hnd hlen
    by_contra hno
    push_neg at hno
    have hsub : entries ⊆ getImagesListing entries := fun b hb => hno b hb
    have hle := (List.subperm_of_subset hnd hsub).length_le
    have hcap : (getImagesListing entries).length ≤ 100 := by
      rw [hLdef]
      exact List.length_take_le 100 _
    omega
  · intro b hb hbnot a ha
    have hbs : b ∈ sortByCreatedDesc entries := hperm.mem_iff.mpr hb
    have hsplit : (sortByCreatedDesc entries).take 100
        ++ (sortByCreatedDesc entries).drop 100 = sortByCreatedDesc entries :=
      List.take_append_drop 100 _
    have hpw : List.Pairwise createdDesc
        ((sortByCreatedDesc entries).take 100
          ++ (sortByCreatedDesc entries).drop 100) := by
      rw [hsplit]
      exact hsorted
    have hbdrop : b ∈ (sortByCreatedDesc entries).drop 100 := by
      rw [← hsplit] at hbs
      rcases List.mem_append.mp hbs with h | h
      · rw [hLdef] at hbnot
        exact absurd h hbnot
      · exact h
    rw [hLdef] at ha
    exact (List.pairwise_append.mp hpw).2.2 a ha b hbdrop

/-- C9 witness: a folder of 101 distinct assets has an invisible one. -/
theorem c9_witness :
    ∃ b ∈ (List.range 101).map (fun i => ImgEntry.mk "" i),
      b ∉ getImagesListing ((List.range 101).map (fun i => ImgEntry.mk "" i)) :=
  (c9_listing_cap ((List.range 101).map (fun i => ImgEntry.mk "" i))).2.2.2.2.2.2.1
    (by decide) (by decide)

/- ---------------------------------------------------------------------
   C10: deletePartImage and the vehicle_parts update
   --------------------------------------------------------------------- -/

theorem infix_slash_of_append {pat c d : List Char}
    (hp : pat.head? = some '/') (hc : ∀ x ∈ c, x ≠ '/')
    (h : pat <:+: c ++ d) : pat <:+: d := by
  induction c with
  | nil => simpa using h
  | cons ch ct ih =>
    rw [List.cons_append] at h
    rcases List.infix_cons_iff.mp h with hpre | hinf
    · cases pat with
      | nil => simp at hp
      | cons p0 ps =>
        have hp0 : p0 = '/' := by simpa using hp
        have hch : p0 = ch := (List.cons_prefix_cons.mp hpre).1
        exact absurd (hch ▸ hp0 : ch = '/') (hc ch (by simp))
    · exact ih (fun x hx => hc x (List.mem_cons_of_mem _ hx)) hinf

theorem not_containsMainJpg_view (viewType ext : String)
    (hvt : viewType ∈ (["front", "back", "left", "right", "top"] : List String))
    (hext : ∀ x ∈ ext.data, x ≠ '/') :
    containsMainJpg (viewImagePathStr viewType ext) = false := by
  have hsplit : (viewImagePathStr viewType ext).data
      = (currentPartSlug ++ "/" ++ viewType ++ "_jpg/" ++ viewType ++ ".").data
        ++ ext.data := by
    unfold viewImagePathStr
    simp
  by_contra hcon
  simp only [Bool.not_eq_false] at hcon
  have hinf : "/main_jpg/".data
      <:+: (viewImagePathStr viewType ext).data := of_decide_eq_true hcon
  rw [hsplit] at hinf
  have hrev : "/main_jpg/".data.reverse
      <:+: ext.data.reverse
        ++ ((currentPartSlug ++ "/" ++ viewType ++ "_jpg/" ++ viewType ++ ".").data).reverse := by
    rw [← List.reverse_append]
    exact List.reverse_infix.mpr hinf
  have hhead : ("/main_jpg/".data.reverse).head? = some '/' := by decide
  have hext2 : ∀ x ∈ ext.data.reverse, x ≠ '/' := fun x hx =>
    hext x (List.mem_reverse.mp hx)
  have hpre : "/main_jpg/".data.reverse
      <:+: ((currentPartSlug ++ "/" ++ viewType ++ "_jpg/" ++ viewType ++ ".").data).reverse :=
    infix_slash_of_append hhead hext2 hrev
  have hfin : "/main_jpg/".data
      <:+: (currentPartSlug ++ "/" ++ viewType ++ "_jpg/" ++ viewType ++ ".").data :=
    List.reverse_infix.mp hpre
  simp only [List.mem_cons, List.mem_singleton] at hvt
  rcases hvt with rfl | rfl | rfl | rfl | rfl | hfalse
  · exact absurd hfin (by decide)
  · exact absurd hfin (by decide)
  · exact absurd hfin (by decide)
  · exact absurd hfin (by decide)
  · exact absurd hfin (by decide)
  · exact absurd hfalse (by simp)

/-- C10: a successful deletePartImage whose path contains /main_jpg/ sets
itemurl to null and refreshes updated_at on the vehicle_parts rows keyed
by the current part slug, leaving rows with other slugs and all other
columns unchanged; a successful delete of any other view type (a
view-scoped path for front, back, left, right or top, with a slash-free
extension) leaves the vehicle_parts table entirely unchanged. -/
theorem c10_main_delete_effect (path : String) (σ : List (String × Nat))
    (db : List PartRow) (now : Nat) :
    (containsMainJpg path = true
      → (deletePartImageStep path σ db now).2 = clearMainItemUrl db now)
    ∧ (containsMainJpg path = false
      → (deletePartImageStep path σ db now).2 = db)
    ∧ (∀ r ∈ db, r.part_slug = currentPartSlug
        → ({ r with itemurl := none, updated_at := now } : PartRow)
            ∈ clearMainItemUrl db now)
    ∧ (∀ r ∈ db, r.part_slug ≠ currentPartSlug → r ∈ clearMainItemUrl db now)
    ∧ (∀ r ∈ clearMainItemUrl db now,
        ∃ r0 ∈ db, r.part_slug = r0.part_slug ∧ r.itemname = r0.itemname
          ∧ r.category_id = r0.category_id
          ∧ (r0.part_slug ≠ currentPartSlug → r = r0))
    ∧ (∀ viewType ∈ (["front", "back", "left", "right", "top"] : List String),
        ∀ ext : String, (∀ x ∈ ext.data, x ≠ '/')
          → (deletePartImageStep (viewImagePathStr viewType ext) σ db now).2 = db) := by
  refine ⟨?_, ?_, ?_, ?_, ?_, ?_⟩
  · intro h
    simp [deletePartImageStep, h]
  · intro h
    simp [deletePartImageStep, h]
  · intro r hr hslug
    unfold clearMainItemUrl
    refine List.mem_map.mpr ⟨r, hr, ?_⟩
    rw [if_pos (by simpa using hslug)]
  · intro r hr hslug
    unfold clearMainItemUrl
    refine List.mem_map.mpr ⟨r, hr, ?_⟩
    rw [if_neg (by simpa using hslug)]
  · intro r hr
    obtain ⟨r0, hr0, hmap⟩ := List.mem_map.mp hr
    by_cases hs : r0.part_slug = currentPartSlug
    · rw [if_pos (by simpa using hs)] at hmap
      exact ⟨r0, hr0, by rw [← hmap], by rw [← hmap], by rw [← hmap],
        fun hne => absurd hs hne⟩
    · rw [if_neg (by simpa using hs)] at hmap
      exact ⟨r0, hr0, by rw [hmap], by rw [hmap], by rw [hmap], fun _ => hmap.symm⟩
  · intro viewType hvt ext hext
    have hfalse := not_containsMainJpg_view viewType ext hvt hext
    simp [deletePartImageStep, hfalse]

/-- C10 witness: a concrete main-view delete nulls itemurl and refreshes
updated_at for the part-id row. -/
theorem c10_witness :
    (deletePartImageStep "part-id/main_jpg/main.jpg" []
        [⟨"part-id", "wheel", some "url", none, 0⟩] 5).2
      = clearMainItemUrl [⟨"part-id", "wheel", some "url", none, 0⟩] 5 :=
  (c10_main_delete_effect "part-id/main_jpg/main.jpg" []
      [⟨"part-id", "wheel", some "url", none, 0⟩] 5).1 (by decide)
